import Mathlib

/-!
# FormatCodeAdapter (lib/adapters/format-code-adapter.js)

A shallow embedding of the adapter that turns the editor commands
"format file" and "format selection" into language-server formatting
requests and applies the returned text edits to the active editor.

The adapter talks to three collaborators whose code is not part of the file:

* `Convert` (lib/convert.js): its four functions are taken as parameters,
  packed in the structure `Convert`;
* the language-client connection: a request either resolves with a list of
  text edits or rejects with an error, so it is a function into `Except`;
* the host editor: its text buffer is a list of characters addressed by
  (row, column) points.

Every call the adapter makes on the connection or on the editor is recorded,
in order, in a list of `Event`s that starts empty with each invocation.

`await` is sequential composition in `Except`: a rejected request makes the
`async` method reject with the same error at that place.
-/

namespace FormatCodeAdapter

/-! ## Values of a server-capabilities record -/

/-- A JavaScript value as it can stand in a field of the capabilities record
received from the server: absent (`undefined`), `null`, a boolean, an
integer-valued number, or a plain object. Strings and arrays, whose comparison
with `true` goes through the conversion of a string to a number, are left
out. -/
inductive JSValue where
  | undefined
  | null
  | boolean (b : Bool)
  | number (n : Int)
  | object
  deriving DecidableEq, Repr

/-- Strict comparison `v === true`: only the boolean `true` passes. -/
def JSValue.strictEqTrue : JSValue → Bool
  | .boolean b => b
  | _ => false

/-- Loose comparison `v == true`. `undefined` and `null` equal only one
another; a boolean is compared as is; for a number, `true` is converted to `1`;
a plain object is converted to the string "[object Object]" and then to NaN,
which equals nothing. -/
def JSValue.looseEqTrue : JSValue → Bool
  | .undefined => false
  | .null => false
  | .boolean b => b
  | .number n => n == 1
  | .object => false

/-- The two fields of `ServerCapabilities` that the adapter reads. -/
structure ServerCapabilities where
  documentRangeFormattingProvider : JSValue
  documentFormattingProvider : JSValue
  deriving DecidableEq, Repr

/-- A flag is declared as an optional boolean: a boolean, or left out. -/
def JSValue.isOptionalBoolean : JSValue → Bool
  | .undefined => true
  | .null => true
  | .boolean _ => true
  | _ => false

/-- The comparisons `v == true` and `v === true` give the same answer on the
value: so it is for every boolean, for `undefined` and `null`, for every plain
object and for every number but 1. -/
def JSValue.comparesAlike (v : JSValue) : Bool :=
  v.looseEqTrue == v.strictEqTrue

/-! ## Protocol and editor data -/

/-- A position of the language-server protocol. -/
structure Position where
  line : Nat
  character : Nat
  deriving DecidableEq, Repr

/-- A range of the language-server protocol. -/
structure LSRange where
  start : Position
  end_ : Position
  deriving DecidableEq, Repr

/-- A text edit returned by the server. -/
structure TextEdit where
  range : LSRange
  newText : String
  deriving DecidableEq, Repr

/-- A point of the editor: row and column. -/
structure Point where
  row : Nat
  column : Nat
  deriving DecidableEq, Repr

/-- A range of the editor. -/
structure Range where
  start : Point
  end_ : Point
  deriving DecidableEq, Repr

/-- The options record of a formatting request. -/
structure FormattingOptions where
  tabSize : Nat
  insertSpaces : Bool
  deriving DecidableEq, Repr

/-- The identifier of a text document (its URI). -/
structure TextDocumentIdentifier where
  uri : String
  deriving DecidableEq, Repr

/-- The parameters of a `documentFormatting` request. -/
structure DocumentFormattingParams where
  textDocument : TextDocumentIdentifier
  options : FormattingOptions
  deriving DecidableEq, Repr

/-- The parameters of a `documentRangeFormatting` request. -/
structure DocumentRangeFormattingParams where
  textDocument : TextDocumentIdentifier
  range : LSRange
  options : FormattingOptions
  deriving DecidableEq, Repr

/-- The method a registered command is bound to. -/
inductive Handler where
  | formatSelection
  | formatDocument
  deriving DecidableEq, Repr

/-- One call made by the adapter on a collaborator. -/
inductive Event where
  | documentFormatting (params : DocumentFormattingParams)
  | documentRangeFormatting (params : DocumentRangeFormattingParams)
  | transactBegin
  | transactEnd
  | setTextInBufferRange (range : Range) (text : String)
  deriving DecidableEq, Repr

/-- The state of a text editor that the adapter reads or writes. -/
structure TextEditor where
  path : String
  buffer : List Char
  tabLength : Nat
  softTabs : Bool
  selectedBufferRange : Range
  deriving DecidableEq, Repr

/-- An editor during an invocation, with the calls made so far. -/
structure Session where
  editor : TextEditor
  calls : List Event
  deriving DecidableEq, Repr

/-- The functions of `Convert` used by the adapter, taken as parameters. -/
structure Convert where
  grammarScopesToTextEditorScopes : List String → String
  editorToTextDocumentIdentifier : TextEditor → TextDocumentIdentifier
  atomRangeToLSRange : Range → LSRange
  lsRangeToAtomRange : LSRange → Range

/-- The language-client connection: each request resolves with text edits or
rejects with an error of type `ε`. -/
structure LanguageClientConnection (ε : Type) where
  documentFormatting : DocumentFormattingParams → Except ε (List TextEdit)
  documentRangeFormatting : DocumentRangeFormattingParams → Except ε (List TextEdit)

/-! ## The text buffer of the host editor

The buffer belongs to the host editor and is not among the sources. It is
modelled as the list of its characters, '\n' ending a line, with the points of
a range resolved to character indices in the text as it is when the call is
made. -/

/-- Modelled from the spec: the text buffer of the host editor, which is not
among the sources. Character index of the point (row, column) in a text, the
point being clipped to the text: a column past the end of its line is the end
of that line, a row past the last line is the end of the text. -/
def characterIndexForPosition : List Char → Nat → Nat → Nat
  | [], _, _ => 0
  | _ :: _, 0, 0 => 0
  | c :: cs, 0, col + 1 =>
    if c = '\n' then 0 else characterIndexForPosition cs 0 col + 1
  | c :: cs, row + 1, col =>
    if c = '\n' then characterIndexForPosition cs row col + 1
    else characterIndexForPosition cs (row + 1) col + 1

/-- Modelled from the spec: the text buffer of the host editor, which is not
among the sources. A point lies in the text: its row exists and its column is
at most the length of that row. -/
def isValidPosition : List Char → Nat → Nat → Bool
  | [], 0, 0 => true
  | [], _, _ => false
  | _ :: _, 0, 0 => true
  | c :: cs, 0, col + 1 => if c = '\n' then false else isValidPosition cs 0 col
  | c :: cs, row + 1, col =>
    if c = '\n' then isValidPosition cs row col else isValidPosition cs (row + 1) col

/-- Character index of a point in a text. -/
def Point.index (text : List Char) (p : Point) : Nat :=
  characterIndexForPosition text p.row p.column

/-- The point lies in the text. -/
def Point.validIn (text : List Char) (p : Point) : Bool :=
  isValidPosition text p.row p.column

/-- Order of points: by row, then by column. -/
def Point.le (p q : Point) : Prop :=
  p.row < q.row ∨ (p.row = q.row ∧ p.column ≤ q.column)

instance (p q : Point) : Decidable (Point.le p q) := by
  unfold Point.le; infer_instance

/-- Order of protocol positions: by line, then by character. -/
def Position.le (p q : Position) : Prop :=
  p.line < q.line ∨ (p.line = q.line ∧ p.character ≤ q.character)

instance (p q : Position) : Decidable (Position.le p q) := by
  unfold Position.le; infer_instance

/-- Modelled from the spec: the text buffer of the host editor, which is not
among the sources. Replace the text between the character indices of the two
points of a range. A range object keeps its two points in order, so the smaller
index is its start. -/
def setTextInRange (text : List Char) (range : Range) (newText : String) : List Char :=
  let a := range.start.index text
  let b := range.end_.index text
  text.take (min a b) ++ newText.toList ++ text.drop (max a b)

/-- The editor call `setTextInBufferRange(range, text)`: the call is recorded
and the buffer text replaced. -/
def Session.setTextInBufferRange (s : Session) (range : Range) (text : String) : Session :=
  { editor := { s.editor with buffer := setTextInRange s.editor.buffer range text }
    calls := s.calls ++ [Event.setTextInBufferRange range text] }

/-- The buffer call `transact(fn)`: the function runs between the opening and
the closing of one transaction. -/
def Session.transact (s : Session) (fn : Session → Session) : Session :=
  let opened : Session := { s with calls := s.calls ++ [Event.transactBegin] }
  let done := fn opened
  { done with calls := done.calls ++ [Event.transactEnd] }

/-! ## The adapter -/

/-- The static method `canAdapt`. -/
def canAdapt (serverCapabilities : ServerCapabilities) : Bool :=
  serverCapabilities.documentRangeFormattingProvider.looseEqTrue ||
    serverCapabilities.documentFormattingProvider.looseEqTrue

/-- One registration made through `atom.commands.add`. -/
structure Registration where
  target : String
  commandName : String
  handler : Handler
  deriving DecidableEq, Repr

/-- The method `registerCommands`: the registrations are added, in order, to
those the command registry already holds. -/
def registerCommands (capabilities : ServerCapabilities) (textEditorScopes : String)
    (registry : List Registration) : List Registration :=
  let registry :=
    if capabilities.documentRangeFormattingProvider.strictEqTrue then
      registry ++ [⟨textEditorScopes, "language:format-selection", Handler.formatSelection⟩]
    else registry
  if capabilities.documentFormattingProvider.strictEqTrue then
    registry ++ [⟨textEditorScopes, "language:format-file", Handler.formatDocument⟩]
  else registry

/-- The constructor: the commands are registered on the scopes computed from
the grammar scopes. -/
def construct (conv : Convert) (capabilities : ServerCapabilities) (grammarScopes : List String)
    (registry : List Registration) : List Registration :=
  registerCommands capabilities (conv.grammarScopesToTextEditorScopes grammarScopes) registry

/-- The static method `getFormatOptions`. -/
def getFormatOptions (editor : TextEditor) : FormattingOptions :=
  { tabSize := editor.tabLength
    insertSpaces := editor.softTabs }

/-- The static method `createDocumentFormattingParams`. -/
def createDocumentFormattingParams (conv : Convert) (editor : TextEditor) :
    DocumentFormattingParams :=
  { textDocument := conv.editorToTextDocumentIdentifier editor
    options := getFormatOptions editor }

/-- The static method `createDocumentRangeFormattingParams`. -/
def createDocumentRangeFormattingParams (conv : Convert) (editor : TextEditor) :
    DocumentRangeFormattingParams :=
  { textDocument := conv.editorToTextDocumentIdentifier editor
    range := conv.atomRangeToLSRange editor.selectedBufferRange
    options := getFormatOptions editor }

/-- The static method `applyTextEdits`: one editor call for each edit, in the
order of the list. -/
def applyTextEdits (conv : Convert) (editor : Session) (textEdits : List TextEdit) :
    Session :=
  textEdits.foldl
    (fun ed textEdit =>
      ed.setTextInBufferRange (conv.lsRangeToAtomRange textEdit.range) textEdit.newText)
    editor

/-- The static method `applyTextEditsInTransaction`. -/
def applyTextEditsInTransaction (conv : Convert) (editor : Session)
    (textEdits : List TextEdit) : Session :=
  editor.transact (fun ed => applyTextEdits conv ed textEdits)

/-- What an invocation leaves behind: how the method completed, the active
editor afterwards (absent when there was none), and the calls it made on the
connection and on the editor, in order. -/
structure Outcome (ε : Type) where
  result : Except ε Unit
  editor : Option TextEditor
  calls : List Event

/-- The method `formatDocument`. -/
def formatDocument {ε : Type} (conv : Convert) (connection : LanguageClientConnection ε)
    (activeTextEditor : Option TextEditor) : Outcome ε :=
  match activeTextEditor with
  | none => ⟨.ok (), none, []⟩
  | some editor =>
    let params := createDocumentFormattingParams conv editor
    let sent : Session := ⟨editor, [Event.documentFormatting params]⟩
    match connection.documentFormatting params with
    | .error e => ⟨.error e, some sent.editor, sent.calls⟩
    | .ok textEdits =>
      let textEdits := textEdits.reverse
      let done := applyTextEditsInTransaction conv sent textEdits
      ⟨.ok (), some done.editor, done.calls⟩

/-- The method `formatSelection`. -/
def formatSelection {ε : Type} (conv : Convert) (connection : LanguageClientConnection ε)
    (activeTextEditor : Option TextEditor) : Outcome ε :=
  match activeTextEditor with
  | none => ⟨.ok (), none, []⟩
  | some editor =>
    let params := createDocumentRangeFormattingParams conv editor
    let sent : Session := ⟨editor, [Event.documentRangeFormatting params]⟩
    match connection.documentRangeFormatting params with
    | .error e => ⟨.error e, some sent.editor, sent.calls⟩
    | .ok textEdits =>
      let textEdits := textEdits.reverse
      let done := applyTextEditsInTransaction conv sent textEdits
      ⟨.ok (), some done.editor, done.calls⟩

/-! ## Reading a log -/

/-- The `setTextInBufferRange` calls of a log, in order, each with its range
and its text. -/
def setTextCalls : List Event → List (Range × String)
  | [] => []
  | Event.setTextInBufferRange range text :: rest => (range, text) :: setTextCalls rest
  | _ :: rest => setTextCalls rest

/-- The call is a `setTextInBufferRange`. -/
def Event.isSetText : Event → Bool
  | .setTextInBufferRange _ _ => true
  | _ => false

/-- The call is a request on the connection. -/
def Event.isRequest : Event → Bool
  | .documentFormatting _ => true
  | .documentRangeFormatting _ => true
  | _ => false

/-- The call is a `documentFormatting` request. -/
def Event.isDocumentFormatting : Event → Bool
  | .documentFormatting _ => true
  | _ => false

/-- The call is a `documentRangeFormatting` request. -/
def Event.isDocumentRangeFormatting : Event → Bool
  | .documentRangeFormatting _ => true
  | _ => false

/-- The editor call that `applyTextEdits` makes for one edit. -/
def editCall (conv : Convert) (textEdit : TextEdit) : Range × String :=
  (conv.lsRangeToAtomRange textEdit.range, textEdit.newText)

/-- The call opens a transaction. -/
def Event.isTransactBegin : Event → Bool
  | .transactBegin => true
  | _ => false

/-- The call closes a transaction. -/
def Event.isTransactEnd : Event → Bool
  | .transactEnd => true
  | _ => false

/-- The invocation completed without error. -/
def Outcome.succeeded {ε : Type} (o : Outcome ε) : Bool :=
  match o.result with
  | .ok _ => true
  | .error _ => false

/-! ## Replacing all ranges at once

The reference against which the sequential application is compared: every
range is resolved in the original text, and the result is put together from
the untouched stretches of the original and the new texts. -/

/-- Replace the given index ranges of `text`, all taken in `text` itself, by
their new texts; `pos` is the index up to which `text` is already consumed. -/
def replaceFrom (text : List Char) (pos : Nat) : List (Nat × Nat × List Char) → List Char
  | [] => text.drop pos
  | (s, e, t) :: rest => (text.drop pos).take (s - pos) ++ t ++ replaceFrom text e rest

/-- Replacing all the ranges of the edits simultaneously in the original
text. -/
def replaceSimultaneously (conv : Convert) (text : List Char) (textEdits : List TextEdit) :
    List Char :=
  replaceFrom text 0
    (textEdits.map fun textEdit =>
      ((conv.lsRangeToAtomRange textEdit.range).start.index text,
        (conv.lsRangeToAtomRange textEdit.range).end_.index text,
        textEdit.newText.toList))

/-- The edits are listed in ascending position order without overlap: every
range starts no later than it ends, and ends no later than any range listed
after it starts. -/
def AscendingDisjoint (conv : Convert) (textEdits : List TextEdit) : Prop :=
  (∀ textEdit ∈ textEdits,
      Point.le (conv.lsRangeToAtomRange textEdit.range).start
        (conv.lsRangeToAtomRange textEdit.range).end_) ∧
  textEdits.Pairwise fun a b =>
    Point.le (conv.lsRangeToAtomRange a.range).end_ (conv.lsRangeToAtomRange b.range).start

/-- The point `p` resolves in the text without depending on what stands at or
after the point `q`: it lies in the text, or it is clipped to an index strictly
before the index of `q`. -/
def Point.settledBefore (text : List Char) (p q : Point) : Prop :=
  p.validIn text = true ∨ p.index text < q.index text

instance (text : List Char) (p q : Point) : Decidable (Point.settledBefore text p q) := by
  unfold Point.settledBefore; infer_instance

/-- Both points of every range are settled before the start of every range
listed after it. The range listed last is under no condition. -/
def SettledPositions (conv : Convert) (text : List Char) (textEdits : List TextEdit) : Prop :=
  textEdits.Pairwise fun a b =>
    (conv.lsRangeToAtomRange a.range).start.settledBefore text
        (conv.lsRangeToAtomRange b.range).start ∧
    (conv.lsRangeToAtomRange a.range).end_.settledBefore text
        (conv.lsRangeToAtomRange b.range).start

/-- The calls apply the edits of the response, each once, in descending
position order: an edit applied before another starts at a position greater
than or equal to the start of the other. -/
def AppliedInDescendingOrder (conv : Convert) (calls : List Event) (textEdits : List TextEdit) :
    Prop :=
  ∃ applied : List TextEdit,
    applied.Perm textEdits ∧
    setTextCalls calls = applied.map (editCall conv) ∧
    applied.Pairwise fun a b => Position.le b.range.start a.range.start

/-- The calls apply each edit of the response exactly once, in the reverse of
the order of the response: there are as many `setTextInBufferRange` calls as
edits, and the call at place `i` (from 0) is the one for the edit at place
`n - 1 - i` of the response, with its range converted and its new text. -/
def AppliedInReverse (conv : Convert) (calls : List Event) (textEdits : List TextEdit) : Prop :=
  (setTextCalls calls).length = textEdits.length ∧
  (∀ i, i < textEdits.length →
    (setTextCalls calls)[i]? = (textEdits[textEdits.length - 1 - i]?).map (editCall conv)) ∧
  (calls.filter Event.isSetText).length = textEdits.length

/-- The `setTextInBufferRange` call that `applyTextEdits` makes for one edit,
as a recorded call. -/
def editEvent (conv : Convert) (textEdit : TextEdit) : Event :=
  Event.setTextInBufferRange (conv.lsRangeToAtomRange textEdit.range) textEdit.newText

/-- The returned edits are applied as a single transaction: the calls are some
calls that neither edit the buffer nor open or close a transaction, then the
opening of a transaction, then the `setTextInBufferRange` calls of the returned
edits (each edit once, last edit first) and nothing else, then the closing of
the transaction, with nothing after it. -/
def AppliedInOneTransaction (conv : Convert) (calls : List Event) (textEdits : List TextEdit) :
    Prop :=
  ∃ before : List Event,
    calls = before ++ [Event.transactBegin] ++ textEdits.reverse.map (editEvent conv)
      ++ [Event.transactEnd] ∧
    (∀ e ∈ before, e.isSetText = false ∧ e.isTransactBegin = false ∧ e.isTransactEnd = false)

/-- The commands that `registerCommands` adds to a registry. -/
def addedCommands (capabilities : ServerCapabilities) (textEditorScopes : String)
    (registry : List Registration) : List Registration :=
  (registerCommands capabilities textEditorScopes registry).drop registry.length

/-! ## A conversion for concrete runs -/

/-- An instance of the `Convert` parameters used to run the adapter on
concrete inputs: lines are rows, characters are columns, the URI is the path. -/
def plainConvert : Convert where
  grammarScopesToTextEditorScopes := fun scopes => String.intercalate ", " scopes
  editorToTextDocumentIdentifier := fun editor => ⟨editor.path⟩
  atomRangeToLSRange := fun r => ⟨⟨r.start.row, r.start.column⟩, ⟨r.end_.row, r.end_.column⟩⟩
  lsRangeToAtomRange := fun r => ⟨⟨r.start.line, r.start.character⟩, ⟨r.end_.line, r.end_.character⟩⟩

/-- An editor on a two-line buffer. -/
def sampleEditor : TextEditor where
  path := "/tmp/a.txt"
  buffer := "ab\ncd".toList
  tabLength := 4
  softTabs := true
  selectedBufferRange := ⟨⟨0, 1⟩, ⟨1, 1⟩⟩

/-- An edit replacing the stretch from (line, from) to (line, to). -/
def lineEdit (line from_ to_ : Nat) (newText : String) : TextEdit :=
  ⟨⟨⟨line, from_⟩, ⟨line, to_⟩⟩, newText⟩

/-- A connection that answers both requests with the same list of edits. -/
def answering (textEdits : List TextEdit) : LanguageClientConnection String where
  documentFormatting := fun _ => .ok textEdits
  documentRangeFormatting := fun _ => .ok textEdits

/-- A connection that rejects both requests with the same error. -/
def rejecting (e : String) : LanguageClientConnection String where
  documentFormatting := fun _ => .error e
  documentRangeFormatting := fun _ => .error e

/-! ## Lemmas on the text buffer -/

theorem characterIndexForPosition_origin (text : List Char) :
    characterIndexForPosition text 0 0 = 0 := by
  cases text <;> rfl

theorem characterIndexForPosition_le_length (text : List Char) :
    ∀ row col, characterIndexForPosition text row col ≤ text.length := by
  induction text with
  | nil => intro row col; simp [characterIndexForPosition]
  | cons c cs ih =>
    intro row col
    cases row with
    | zero =>
      cases col with
      | zero => simp [characterIndexForPosition]
      | succ k =>
        simp only [characterIndexForPosition, List.length_cons]
        split
        · omega
        · have := ih 0 k; omega
    | succ r =>
      simp only [characterIndexForPosition, List.length_cons]
      split
      · have := ih r col; omega
      · have := ih (r + 1) col; omega

theorem characterIndexForPosition_mono (text : List Char) :
    ∀ r1 c1 r2 c2, (r1 < r2 ∨ (r1 = r2 ∧ c1 ≤ c2)) →
      characterIndexForPosition text r1 c1 ≤ characterIndexForPosition text r2 c2 := by
  induction text with
  | nil => intro r1 c1 r2 c2 _; simp [characterIndexForPosition]
  | cons c cs ih =>
    intro r1 c1 r2 c2 h
    cases r1 with
    | zero =>
      cases c1 with
      | zero => simp [characterIndexForPosition]
      | succ k =>
        cases r2 with
        | zero =>
          cases c2 with
          | zero => omega
          | succ m =>
            simp only [characterIndexForPosition]
            split
            · exact Nat.le_refl _
            · have := ih 0 k 0 m (Or.inr ⟨rfl, by omega⟩); omega
        | succ b =>
          simp only [characterIndexForPosition]
          split
          · omega
          · have := ih 0 k (b + 1) c2 (Or.inl (by omega)); omega
    | succ a =>
      cases r2 with
      | zero => omega
      | succ b =>
        simp only [characterIndexForPosition]
        split
        · have := ih a c1 b c2 (by omega); omega
        · have := ih (a + 1) c1 (b + 1) c2 (by omega); omega

theorem characterIndexForPosition_stable (text : List Char) :
    ∀ row col, isValidPosition text row col = true → ∀ suffix : List Char,
      characterIndexForPosition
          (text.take (characterIndexForPosition text row col) ++ suffix) row col
        = characterIndexForPosition text row col := by
  induction text with
  | nil =>
    intro row col hv suffix
    cases row with
    | zero =>
      cases col with
      | zero => simp [characterIndexForPosition, characterIndexForPosition_origin]
      | succ k => simp [isValidPosition] at hv
    | succ r => simp [isValidPosition] at hv
  | cons c cs ih =>
    intro row col hv suffix
    cases row with
    | zero =>
      cases col with
      | zero => simp [characterIndexForPosition, characterIndexForPosition_origin]
      | succ k =>
        by_cases hc : c = '\n'
        · simp [isValidPosition, hc] at hv
        · simp only [isValidPosition, hc, if_false] at hv
          simp only [characterIndexForPosition, hc, if_false, List.take_succ_cons,
            List.cons_append]
          rw [ih 0 k hv suffix]
    | succ r =>
      by_cases hc : c = '\n'
      · simp only [isValidPosition, hc, if_true] at hv
        simp only [characterIndexForPosition, hc, if_true, List.take_succ_cons,
          List.cons_append]
        rw [ih r col hv suffix]
      · simp only [isValidPosition, hc, if_false] at hv
        simp only [characterIndexForPosition, hc, if_false, List.take_succ_cons,
          List.cons_append]
        rw [ih (r + 1) col hv suffix]

theorem take_split (text : List Char) (a b : Nat) (h : a ≤ b) :
    text.take b = text.take a ++ (text.take b).drop a := by
  have h1 : (text.take b).take a = text.take a := by
    rw [List.take_take, Nat.min_eq_left h]
  rw [← h1, List.take_append_drop]

theorem characterIndexForPosition_stable_of_lt (text : List Char) :
    ∀ (row col b : Nat) (suffix : List Char), b ≤ text.length →
      characterIndexForPosition text row col < b →
      characterIndexForPosition (text.take b ++ suffix) row col
        = characterIndexForPosition text row col := by
  induction text with
  | nil =>
    intro row col b suffix hb hlt
    simp only [List.length_nil] at hb
    omega
  | cons c cs ih =>
    intro row col b suffix hb hlt
    cases b with
    | zero => omega
    | succ b =>
      simp only [List.length_cons] at hb
      cases row with
      | zero =>
        cases col with
        | zero => simp [characterIndexForPosition]
        | succ k =>
          by_cases hc : c = '\n'
          · simp [characterIndexForPosition, hc]
          · simp only [characterIndexForPosition, hc, if_false] at hlt
            simp only [characterIndexForPosition, hc, if_false, List.take_succ_cons,
              List.cons_append]
            exact congrArg (· + 1) (ih 0 k b suffix (by omega) (by omega))
      | succ r =>
        by_cases hc : c = '\n'
        · simp only [characterIndexForPosition, hc, if_true] at hlt
          simp only [characterIndexForPosition, hc, if_true, List.take_succ_cons,
            List.cons_append]
          exact congrArg (· + 1) (ih r col b suffix (by omega) (by omega))
        · simp only [characterIndexForPosition, hc, if_false] at hlt
          simp only [characterIndexForPosition, hc, if_false, List.take_succ_cons,
            List.cons_append]
          exact congrArg (· + 1) (ih (r + 1) col b suffix (by omega) (by omega))

theorem index_in_edited (text : List Char) (p : Point) (b : Nat) (suffix : List Char)
    (hlen : b ≤ text.length) (hb : p.index text ≤ b)
    (hs : p.validIn text = true ∨ p.index text < b) :
    p.index (text.take b ++ suffix) = p.index text := by
  unfold Point.index at *
  unfold Point.validIn at hs
  rcases hs with hv | hlt
  · rw [take_split text _ b hb, List.append_assoc]
    exact characterIndexForPosition_stable text p.row p.column hv _
  · exact characterIndexForPosition_stable_of_lt text p.row p.column b suffix hlen hlt

theorem setTextInRange_eq (t : List Char) (range : Range) (newText : String) (a b : Nat)
    (ha : range.start.index t = a) (hb : range.end_.index t = b) (hab : a ≤ b) :
    setTextInRange t range newText = t.take a ++ newText.toList ++ t.drop b := by
  unfold setTextInRange
  simp only [ha, hb]
  rw [Nat.min_eq_left hab, Nat.max_eq_right hab]

theorem foldr_setTextInRange (conv : Convert) (text : List Char) :
    ∀ (textEdits : List TextEdit) (pos : Nat),
      AscendingDisjoint conv textEdits →
      SettledPositions conv text textEdits →
      (∀ textEdit ∈ textEdits, pos ≤ (conv.lsRangeToAtomRange textEdit.range).start.index text) →
      textEdits.foldr
          (fun textEdit t =>
            setTextInRange t (conv.lsRangeToAtomRange textEdit.range) textEdit.newText) text
        = text.take pos ++ replaceFrom text pos
            (textEdits.map fun textEdit =>
              ((conv.lsRangeToAtomRange textEdit.range).start.index text,
                (conv.lsRangeToAtomRange textEdit.range).end_.index text,
                textEdit.newText.toList)) := by
  intro textEdits
  induction textEdits with
  | nil => intro pos _ _ _; simp [replaceFrom]
  | cons e rest ih =>
    intro pos hAsc hSet hpos
    obtain ⟨hall, hpair⟩ := hAsc
    rw [List.pairwise_cons] at hpair
    obtain ⟨hfirst, hrest⟩ := hpair
    unfold SettledPositions at hSet
    rw [List.pairwise_cons] at hSet
    obtain ⟨hsfirst, hsrest⟩ := hSet
    have hse := hall e (List.mem_cons_self _ _)
    have hso_eo : (conv.lsRangeToAtomRange e.range).start.index text
        ≤ (conv.lsRangeToAtomRange e.range).end_.index text :=
      characterIndexForPosition_mono text _ _ _ _ hse
    have hlen : (conv.lsRangeToAtomRange e.range).end_.index text ≤ text.length :=
      characterIndexForPosition_le_length text _ _
    have hAscRest : AscendingDisjoint conv rest :=
      ⟨fun x hx => hall x (List.mem_cons_of_mem _ hx), hrest⟩
    have hIH := ih ((conv.lsRangeToAtomRange e.range).end_.index text) hAscRest hsrest
      (fun x hx => characterIndexForPosition_mono text _ _ _ _ (hfirst x hx))
    have hstab : ∀ p : Point,
        p.index text ≤ (conv.lsRangeToAtomRange e.range).end_.index text →
        (∀ b ∈ rest, p.settledBefore text (conv.lsRangeToAtomRange b.range).start) →
        p.index (rest.foldr
            (fun textEdit t =>
              setTextInRange t (conv.lsRangeToAtomRange textEdit.range) textEdit.newText) text)
          = p.index text := by
      intro p hpe hps
      cases rest with
      | nil => rfl
      | cons e2 rest2 =>
        have hnext : (conv.lsRangeToAtomRange e.range).end_.index text
            ≤ (conv.lsRangeToAtomRange e2.range).start.index text :=
          characterIndexForPosition_mono text _ _ _ _ (hfirst e2 (List.mem_cons_self _ _))
        have hIH2 := ih ((conv.lsRangeToAtomRange e2.range).start.index text) hAscRest hsrest
          (by
            intro x hx
            rcases List.mem_cons.mp hx with rfl | hx2
            · exact Nat.le_refl _
            · have h1 := characterIndexForPosition_mono text _ _ _ _
                (hAscRest.1 e2 (List.mem_cons_self _ _))
              have h2 := characterIndexForPosition_mono text _ _ _ _
                ((List.pairwise_cons.mp hrest).1 x hx2)
              exact Nat.le_trans h1 h2)
        rw [hIH2]
        exact index_in_edited text p _ _ (characterIndexForPosition_le_length text _ _)
          (Nat.le_trans hpe hnext) (hps e2 (List.mem_cons_self _ _))
    have hp := hpos e (List.mem_cons_self _ _)
    simp only [List.foldr_cons, List.map_cons, replaceFrom]
    rw [setTextInRange_eq _ _ _ _ _
      (hstab _ hso_eo (fun b hb => (hsfirst b hb).1))
      (hstab _ (Nat.le_refl _) (fun b hb => (hsfirst b hb).2)) hso_eo]
    rw [hIH]
    generalize replaceFrom text ((conv.lsRangeToAtomRange e.range).end_.index text)
      (rest.map fun textEdit =>
        ((conv.lsRangeToAtomRange textEdit.range).start.index text,
          (conv.lsRangeToAtomRange textEdit.range).end_.index text,
          textEdit.newText.toList)) = tail
    generalize (conv.lsRangeToAtomRange e.range).start.index text = so at *
    generalize (conv.lsRangeToAtomRange e.range).end_.index text = eo at *
    have hd : (text.take eo ++ tail).drop eo = tail := by
      apply List.drop_left'
      simp [List.length_take]; omega
    have ht : (text.take eo ++ tail).take so = text.take so := by
      rw [take_split text so eo hso_eo, List.append_assoc]
      apply List.take_left'
      simp [List.length_take]; omega
    have hsplit : text.take so = text.take pos ++ (text.drop pos).take (so - pos) := by
      have : so = pos + (so - pos) := by omega
      conv_lhs => rw [this]
      exact List.take_add text pos (so - pos)
    rw [hd, ht, hsplit]
    simp [List.append_assoc]

theorem applyTextEdits_buffer (conv : Convert) (textEdits : List TextEdit) :
    ∀ s : Session,
      (applyTextEdits conv s textEdits).editor.buffer
        = textEdits.foldl
            (fun t textEdit =>
              setTextInRange t (conv.lsRangeToAtomRange textEdit.range) textEdit.newText)
            s.editor.buffer := by
  induction textEdits with
  | nil => intro s; rfl
  | cons e rest ih =>
    intro s
    simp only [applyTextEdits, List.foldl_cons] at ih ⊢
    rw [ih]
    rfl

theorem applyTextEdits_calls (conv : Convert) (textEdits : List TextEdit) :
    ∀ s : Session,
      (applyTextEdits conv s textEdits).calls
        = s.calls ++ textEdits.map fun textEdit =>
            Event.setTextInBufferRange (conv.lsRangeToAtomRange textEdit.range)
              textEdit.newText := by
  induction textEdits with
  | nil => intro s; simp [applyTextEdits]
  | cons e rest ih =>
    intro s
    simp only [applyTextEdits, List.foldl_cons] at ih ⊢
    rw [ih]
    simp [Session.setTextInBufferRange]

theorem applyTextEditsInTransaction_calls (conv : Convert) (s : Session)
    (textEdits : List TextEdit) :
    (applyTextEditsInTransaction conv s textEdits).calls
      = s.calls ++ [Event.transactBegin]
        ++ (textEdits.map fun textEdit =>
            Event.setTextInBufferRange (conv.lsRangeToAtomRange textEdit.range)
              textEdit.newText)
        ++ [Event.transactEnd] := by
  simp [applyTextEditsInTransaction, Session.transact, applyTextEdits_calls]

theorem applyTextEditsInTransaction_buffer (conv : Convert) (s : Session)
    (textEdits : List TextEdit) :
    (applyTextEditsInTransaction conv s textEdits).editor.buffer
      = textEdits.foldl
          (fun t textEdit =>
            setTextInRange t (conv.lsRangeToAtomRange textEdit.range) textEdit.newText)
          s.editor.buffer := by
  simp [applyTextEditsInTransaction, Session.transact, applyTextEdits_buffer]

theorem formatDocument_resolved {ε : Type} (conv : Convert)
    (connection : LanguageClientConnection ε) (editor : TextEditor) (textEdits : List TextEdit)
    (h : connection.documentFormatting (createDocumentFormattingParams conv editor)
      = .ok textEdits) :
    formatDocument conv connection (some editor)
      = ⟨.ok (),
          some (applyTextEditsInTransaction conv
            ⟨editor, [Event.documentFormatting (createDocumentFormattingParams conv editor)]⟩
            textEdits.reverse).editor,
          (applyTextEditsInTransaction conv
            ⟨editor, [Event.documentFormatting (createDocumentFormattingParams conv editor)]⟩
            textEdits.reverse).calls⟩ := by
  simp only [formatDocument, h]

theorem formatSelection_resolved {ε : Type} (conv : Convert)
    (connection : LanguageClientConnection ε) (editor : TextEditor) (textEdits : List TextEdit)
    (h : connection.documentRangeFormatting (createDocumentRangeFormattingParams conv editor)
      = .ok textEdits) :
    formatSelection conv connection (some editor)
      = ⟨.ok (),
          some (applyTextEditsInTransaction conv
            ⟨editor,
              [Event.documentRangeFormatting (createDocumentRangeFormattingParams conv editor)]⟩
            textEdits.reverse).editor,
          (applyTextEditsInTransaction conv
            ⟨editor,
              [Event.documentRangeFormatting (createDocumentRangeFormattingParams conv editor)]⟩
            textEdits.reverse).calls⟩ := by
  simp only [formatSelection, h]

theorem formatDocument_rejected {ε : Type} (conv : Convert)
    (connection : LanguageClientConnection ε) (editor : TextEditor) (e : ε)
    (h : connection.documentFormatting (createDocumentFormattingParams conv editor)
      = .error e) :
    formatDocument conv connection (some editor)
      = ⟨.error e, some editor,
          [Event.documentFormatting (createDocumentFormattingParams conv editor)]⟩ := by
  simp only [formatDocument, h]

theorem formatSelection_rejected {ε : Type} (conv : Convert)
    (connection : LanguageClientConnection ε) (editor : TextEditor) (e : ε)
    (h : connection.documentRangeFormatting (createDocumentRangeFormattingParams conv editor)
      = .error e) :
    formatSelection conv connection (some editor)
      = ⟨.error e, some editor,
          [Event.documentRangeFormatting (createDocumentRangeFormattingParams conv editor)]⟩ := by
  simp only [formatSelection, h]

theorem setTextCalls_append (xs ys : List Event) :
    setTextCalls (xs ++ ys) = setTextCalls xs ++ setTextCalls ys := by
  induction xs with
  | nil => rfl
  | cons x rest ih => cases x <;> simp [setTextCalls, ih]

theorem setTextCalls_map (conv : Convert) (textEdits : List TextEdit) :
    setTextCalls
        (textEdits.map fun textEdit =>
          Event.setTextInBufferRange (conv.lsRangeToAtomRange textEdit.range) textEdit.newText)
      = textEdits.map (editCall conv) := by
  induction textEdits with
  | nil => rfl
  | cons x rest ih => simp [setTextCalls, ih, editCall]

theorem formatDocument_calls {ε : Type} (conv : Convert)
    (connection : LanguageClientConnection ε) (editor : TextEditor) (textEdits : List TextEdit)
    (h : connection.documentFormatting (createDocumentFormattingParams conv editor)
      = .ok textEdits) :
    (formatDocument conv connection (some editor)).calls
      = [Event.documentFormatting (createDocumentFormattingParams conv editor)]
        ++ [Event.transactBegin]
        ++ (textEdits.reverse.map fun textEdit =>
            Event.setTextInBufferRange (conv.lsRangeToAtomRange textEdit.range)
              textEdit.newText)
        ++ [Event.transactEnd] := by
  rw [formatDocument_resolved conv connection editor textEdits h]
  exact applyTextEditsInTransaction_calls conv _ _

theorem formatSelection_calls {ε : Type} (conv : Convert)
    (connection : LanguageClientConnection ε) (editor : TextEditor) (textEdits : List TextEdit)
    (h : connection.documentRangeFormatting (createDocumentRangeFormattingParams conv editor)
      = .ok textEdits) :
    (formatSelection conv connection (some editor)).calls
      = [Event.documentRangeFormatting (createDocumentRangeFormattingParams conv editor)]
        ++ [Event.transactBegin]
        ++ (textEdits.reverse.map fun textEdit =>
            Event.setTextInBufferRange (conv.lsRangeToAtomRange textEdit.range)
              textEdit.newText)
        ++ [Event.transactEnd] := by
  rw [formatSelection_resolved conv connection editor textEdits h]
  exact applyTextEditsInTransaction_calls conv _ _

theorem setTextCalls_formatDocument {ε : Type} (conv : Convert)
    (connection : LanguageClientConnection ε) (editor : TextEditor) (textEdits : List TextEdit)
    (h : connection.documentFormatting (createDocumentFormattingParams conv editor)
      = .ok textEdits) :
    setTextCalls (formatDocument conv connection (some editor)).calls
      = textEdits.reverse.map (editCall conv) := by
  rw [formatDocument_calls conv connection editor textEdits h, setTextCalls_append,
    setTextCalls_append, setTextCalls_append, setTextCalls_map]
  show [] ++ [] ++ _ ++ [] = _
  simp

theorem setTextCalls_formatSelection {ε : Type} (conv : Convert)
    (connection : LanguageClientConnection ε) (editor : TextEditor) (textEdits : List TextEdit)
    (h : connection.documentRangeFormatting (createDocumentRangeFormattingParams conv editor)
      = .ok textEdits) :
    setTextCalls (formatSelection conv connection (some editor)).calls
      = textEdits.reverse.map (editCall conv) := by
  rw [formatSelection_calls conv connection editor textEdits h, setTextCalls_append,
    setTextCalls_append, setTextCalls_append, setTextCalls_map]
  show [] ++ [] ++ _ ++ [] = _
  simp

theorem descending_of_ascending (conv : Convert) (calls : List Event)
    (textEdits : List TextEdit)
    (hcalls : setTextCalls calls = textEdits.reverse.map (editCall conv))
    (hasc : textEdits.Pairwise fun a b => Position.le a.range.start b.range.start) :
    AppliedInDescendingOrder conv calls textEdits :=
  ⟨textEdits.reverse, List.reverse_perm textEdits, hcalls, List.pairwise_reverse.mpr hasc⟩

/-! ## The claims -/

/-- C1 (as amended): when the server returns the edits in ascending order of
the start of their ranges, `formatDocument` and `formatSelection` apply them in
descending position order: an edit applied before another starts at a position
greater than or equal to the start of the other. -/
theorem applies_descending_when_response_ascending {ε : Type} (conv : Convert)
    (connection : LanguageClientConnection ε) (editor : TextEditor) (textEdits : List TextEdit)
    (hasc : textEdits.Pairwise fun a b => Position.le a.range.start b.range.start) :
    (connection.documentFormatting (createDocumentFormattingParams conv editor)
        = .ok textEdits →
      AppliedInDescendingOrder conv
        (formatDocument conv connection (some editor)).calls textEdits) ∧
    (connection.documentRangeFormatting (createDocumentRangeFormattingParams conv editor)
        = .ok textEdits →
      AppliedInDescendingOrder conv
        (formatSelection conv connection (some editor)).calls textEdits) :=
  ⟨fun h => descending_of_ascending conv _ textEdits
      (setTextCalls_formatDocument conv connection editor textEdits h) hasc,
    fun h => descending_of_ascending conv _ textEdits
      (setTextCalls_formatSelection conv connection editor textEdits h) hasc⟩

/-- C1, witness: a response with an edit on line 0 and then one on line 1 is
applied in descending position order by both methods. -/
theorem applies_descending_when_response_ascending_witness :
    AppliedInDescendingOrder plainConvert
        (formatDocument plainConvert
          (answering [lineEdit 0 0 1 "Y", lineEdit 1 0 1 "X"]) (some sampleEditor)).calls
        [lineEdit 0 0 1 "Y", lineEdit 1 0 1 "X"] ∧
      AppliedInDescendingOrder plainConvert
        (formatSelection plainConvert
          (answering [lineEdit 0 0 1 "Y", lineEdit 1 0 1 "X"]) (some sampleEditor)).calls
        [lineEdit 0 0 1 "Y", lineEdit 1 0 1 "X"] :=
  ⟨(applies_descending_when_response_ascending plainConvert
      (answering [lineEdit 0 0 1 "Y", lineEdit 1 0 1 "X"]) sampleEditor
      [lineEdit 0 0 1 "Y", lineEdit 1 0 1 "X"] (by decide)).1 rfl,
    (applies_descending_when_response_ascending plainConvert
      (answering [lineEdit 0 0 1 "Y", lineEdit 1 0 1 "X"]) sampleEditor
      [lineEdit 0 0 1 "Y", lineEdit 1 0 1 "X"] (by decide)).2 rfl⟩

/-- C1, counterexample: for the response that lists an edit on line 1 before an
edit on line 0, `formatDocument` applies the edit on line 0 first, so the edits
are not applied in descending position order. -/
theorem not_descending_for_descending_response :
    ¬ AppliedInDescendingOrder plainConvert
        (formatDocument plainConvert
          (answering [lineEdit 1 0 1 "X", lineEdit 0 0 1 "Y"]) (some sampleEditor)).calls
        [lineEdit 1 0 1 "X", lineEdit 0 0 1 "Y"] := by
  rintro ⟨applied, -, hcalls, hdesc⟩
  rw [setTextCalls_formatDocument plainConvert _ sampleEditor
    [lineEdit 1 0 1 "X", lineEdit 0 0 1 "Y"] rfl] at hcalls
  match applied, hcalls, hdesc with
  | [], hcalls, _ => simp at hcalls
  | [_], hcalls, _ => simp at hcalls
  | a :: b :: rest, hcalls, hdesc =>
    simp only [List.reverse_cons, List.reverse_nil, List.nil_append, List.singleton_append,
      List.map_cons, List.cons.injEq, editCall, plainConvert, lineEdit, Prod.mk.injEq,
      Range.mk.injEq, Point.mk.injEq] at hcalls
    obtain ⟨⟨⟨⟨ha, -⟩, -⟩, -⟩, ⟨⟨⟨hb, -⟩, -⟩, -⟩, -⟩ := hcalls
    rw [List.pairwise_cons] at hdesc
    have hba := hdesc.1 b (List.mem_cons_self _ _)
    unfold Position.le at hba
    omega

theorem filter_isSetText_eq_length (calls : List Event) :
    (calls.filter Event.isSetText).length = (setTextCalls calls).length := by
  induction calls with
  | nil => rfl
  | cons x rest ih => cases x <;> simp [setTextCalls, Event.isSetText, ih]

theorem appliedInReverse_of_calls (conv : Convert) (calls : List Event)
    (textEdits : List TextEdit)
    (hcalls : setTextCalls calls = textEdits.reverse.map (editCall conv)) :
    AppliedInReverse conv calls textEdits := by
  refine ⟨by simp [hcalls], ?_, by simp [filter_isSetText_eq_length, hcalls]⟩
  intro i hi
  rw [hcalls, List.getElem?_map, List.getElem?_reverse hi]

/-- C2 (as amended): when the ranges of the returned edits do not overlap and
are listed in ascending position order, and both positions of every range but
the last either lie in the buffer or are clipped to an index strictly before
the start of the ranges listed after it, the buffer that `formatDocument`
leaves (the edits applied one after another, last edit first) is the original
buffer with all the ranges replaced simultaneously. -/
theorem formatDocument_buffer_eq_replaceSimultaneously {ε : Type} (conv : Convert)
    (connection : LanguageClientConnection ε) (editor : TextEditor) (textEdits : List TextEdit)
    (h : connection.documentFormatting (createDocumentFormattingParams conv editor)
      = .ok textEdits)
    (hasc : AscendingDisjoint conv textEdits)
    (hset : SettledPositions conv editor.buffer textEdits) :
    (formatDocument conv connection (some editor)).editor.map TextEditor.buffer
      = some (replaceSimultaneously conv editor.buffer textEdits) := by
  rw [formatDocument_resolved conv connection editor textEdits h]
  simp only [Option.map_some', applyTextEditsInTransaction_buffer, List.foldl_reverse]
  rw [foldr_setTextInRange conv editor.buffer textEdits 0 hasc hset
    (fun _ _ => Nat.zero_le _)]
  simp [replaceSimultaneously]

/-- C2, witness: on the buffer "ab\ncd", replacing "a" by "XYZ", deleting "b"
and replacing everything from the start of the second line to a position past
the end of the buffer by "Q" gives "XYZ\nQ"; the edits change the length of the
line they share, so the result depends on the last edit being applied first. -/
theorem formatDocument_buffer_eq_replaceSimultaneously_witness :
    (formatDocument plainConvert
        (answering [lineEdit 0 0 1 "XYZ", lineEdit 0 1 2 "", ⟨⟨⟨1, 0⟩, ⟨7, 0⟩⟩, "Q"⟩])
        (some sampleEditor)).editor.map TextEditor.buffer
      = some (replaceSimultaneously plainConvert sampleEditor.buffer
          [lineEdit 0 0 1 "XYZ", lineEdit 0 1 2 "", ⟨⟨⟨1, 0⟩, ⟨7, 0⟩⟩, "Q"⟩]) ∧
    replaceSimultaneously plainConvert sampleEditor.buffer
        [lineEdit 0 0 1 "XYZ", lineEdit 0 1 2 "", ⟨⟨⟨1, 0⟩, ⟨7, 0⟩⟩, "Q"⟩]
      = "XYZ\nQ".toList :=
  ⟨formatDocument_buffer_eq_replaceSimultaneously plainConvert
      (answering [lineEdit 0 0 1 "XYZ", lineEdit 0 1 2 "", ⟨⟨⟨1, 0⟩, ⟨7, 0⟩⟩, "Q"⟩])
      sampleEditor [lineEdit 0 0 1 "XYZ", lineEdit 0 1 2 "", ⟨⟨⟨1, 0⟩, ⟨7, 0⟩⟩, "Q"⟩] rfl
      (by unfold AscendingDisjoint; decide) (by unfold SettledPositions; decide),
    by decide⟩

/-- C2, counterexample: on the buffer "ab\ncd", whose first line has two
characters, the insertions of "Q" at (0, 3) and of "RRRR" at (0, 4) do not
overlap and are listed in ascending position order, yet `formatDocument` leaves
"abRQRRR\ncd" while replacing both ranges simultaneously in the original buffer
gives "abQRRRR\ncd": the position (0, 3) is clipped to the end of the line in
the original buffer and is a position of the line once "RRRR" is inserted. -/
theorem sequential_differs_for_clipped_positions :
    AscendingDisjoint plainConvert [lineEdit 0 3 3 "Q", lineEdit 0 4 4 "RRRR"] ∧
    (formatDocument plainConvert (answering [lineEdit 0 3 3 "Q", lineEdit 0 4 4 "RRRR"])
        (some sampleEditor)).editor.map TextEditor.buffer
      = some "abRQRRR\ncd".toList ∧
    replaceSimultaneously plainConvert sampleEditor.buffer
        [lineEdit 0 3 3 "Q", lineEdit 0 4 4 "RRRR"]
      = "abQRRRR\ncd".toList ∧
    (formatDocument plainConvert (answering [lineEdit 0 3 3 "Q", lineEdit 0 4 4 "RRRR"])
        (some sampleEditor)).editor.map TextEditor.buffer
      ≠ some (replaceSimultaneously plainConvert sampleEditor.buffer
          [lineEdit 0 3 3 "Q", lineEdit 0 4 4 "RRRR"]) := by
  refine ⟨by unfold AscendingDisjoint; decide, by decide, by decide, by decide⟩

/-- C3: for every response e1, ..., en of the server (the empty one included),
`formatDocument` and `formatSelection` make exactly n `setTextInBufferRange`
calls, the call at place i being the one for the edit at place n + 1 - i, with
its range converted by `lsRangeToAtomRange` and its new text. -/
theorem applies_each_edit_once_in_reverse {ε : Type} (conv : Convert)
    (connection : LanguageClientConnection ε) (editor : TextEditor) (textEdits : List TextEdit) :
    (connection.documentFormatting (createDocumentFormattingParams conv editor)
        = .ok textEdits →
      setTextCalls (formatDocument conv connection (some editor)).calls
          = textEdits.reverse.map (editCall conv) ∧
        AppliedInReverse conv (formatDocument conv connection (some editor)).calls textEdits) ∧
    (connection.documentRangeFormatting (createDocumentRangeFormattingParams conv editor)
        = .ok textEdits →
      setTextCalls (formatSelection conv connection (some editor)).calls
          = textEdits.reverse.map (editCall conv) ∧
        AppliedInReverse conv (formatSelection conv connection (some editor)).calls textEdits) :=
  ⟨fun h =>
      ⟨setTextCalls_formatDocument conv connection editor textEdits h,
        appliedInReverse_of_calls conv _ textEdits
          (setTextCalls_formatDocument conv connection editor textEdits h)⟩,
    fun h =>
      ⟨setTextCalls_formatSelection conv connection editor textEdits h,
        appliedInReverse_of_calls conv _ textEdits
          (setTextCalls_formatSelection conv connection editor textEdits h)⟩⟩

/-- C3, witness: a response of two edits gives two calls, the second edit
first; the empty response gives no call. -/
theorem applies_each_edit_once_in_reverse_witness :
    setTextCalls (formatDocument plainConvert
        (answering [lineEdit 0 0 1 "Y", lineEdit 1 0 1 "X"]) (some sampleEditor)).calls
      = [(⟨⟨1, 0⟩, ⟨1, 1⟩⟩, "X"), (⟨⟨0, 0⟩, ⟨0, 1⟩⟩, "Y")] ∧
    setTextCalls (formatSelection plainConvert (answering []) (some sampleEditor)).calls
      = [] :=
  ⟨((applies_each_edit_once_in_reverse plainConvert
      (answering [lineEdit 0 0 1 "Y", lineEdit 1 0 1 "X"]) sampleEditor
      [lineEdit 0 0 1 "Y", lineEdit 1 0 1 "X"]).1 rfl).1,
    ((applies_each_edit_once_in_reverse plainConvert (answering []) sampleEditor []).2 rfl).1⟩

/-- C4: without an active text editor `formatDocument` and `formatSelection`
complete without error and make no call at all: no request, no transaction, no
buffer edit. -/
theorem no_active_editor_does_nothing {ε : Type} (conv : Convert)
    (connection : LanguageClientConnection ε) :
    ((formatDocument conv connection none).result = .ok () ∧
      (formatDocument conv connection none).calls = [] ∧
      (formatDocument conv connection none).editor = none) ∧
    ((formatSelection conv connection none).result = .ok () ∧
      (formatSelection conv connection none).calls = [] ∧
      (formatSelection conv connection none).editor = none) :=
  ⟨⟨rfl, rfl, rfl⟩, ⟨rfl, rfl, rfl⟩⟩

/-- C5: when the request rejects with an error, the method fails with that same
error, the editor (its buffer with it) is unchanged, and the only call made is
the request: no transaction is opened, no `setTextInBufferRange` is made. -/
theorem rejected_request_propagates {ε : Type} (conv : Convert)
    (connection : LanguageClientConnection ε) (editor : TextEditor) (e : ε) :
    (connection.documentFormatting (createDocumentFormattingParams conv editor) = .error e →
      (formatDocument conv connection (some editor)).result = .error e ∧
      (formatDocument conv connection (some editor)).editor = some editor ∧
      (formatDocument conv connection (some editor)).calls
        = [Event.documentFormatting (createDocumentFormattingParams conv editor)] ∧
      (formatDocument conv connection (some editor)).calls.countP Event.isTransactBegin = 0 ∧
      (formatDocument conv connection (some editor)).calls.countP Event.isSetText = 0) ∧
    (connection.documentRangeFormatting (createDocumentRangeFormattingParams conv editor)
        = .error e →
      (formatSelection conv connection (some editor)).result = .error e ∧
      (formatSelection conv connection (some editor)).editor = some editor ∧
      (formatSelection conv connection (some editor)).calls
        = [Event.documentRangeFormatting (createDocumentRangeFormattingParams conv editor)] ∧
      (formatSelection conv connection (some editor)).calls.countP Event.isTransactBegin = 0 ∧
      (formatSelection conv connection (some editor)).calls.countP Event.isSetText = 0) := by
  constructor
  · intro h
    rw [formatDocument_rejected conv connection editor e h]
    exact ⟨rfl, rfl, rfl, rfl, rfl⟩
  · intro h
    rw [formatSelection_rejected conv connection editor e h]
    exact ⟨rfl, rfl, rfl, rfl, rfl⟩

/-- C5, witness: with a connection that rejects with "boom", both methods fail
with "boom" and leave the editor as it was. -/
theorem rejected_request_propagates_witness :
    ((formatDocument plainConvert (rejecting "boom") (some sampleEditor)).result
        = .error "boom" ∧
      (formatDocument plainConvert (rejecting "boom") (some sampleEditor)).editor
        = some sampleEditor) ∧
    ((formatSelection plainConvert (rejecting "boom") (some sampleEditor)).result
        = .error "boom" ∧
      (formatSelection plainConvert (rejecting "boom") (some sampleEditor)).editor
        = some sampleEditor) :=
  ⟨⟨((rejected_request_propagates plainConvert (rejecting "boom") sampleEditor "boom").1 rfl).1,
      ((rejected_request_propagates plainConvert (rejecting "boom") sampleEditor "boom").1 rfl).2.1⟩,
    ⟨((rejected_request_propagates plainConvert (rejecting "boom") sampleEditor "boom").2 rfl).1,
      ((rejected_request_propagates plainConvert (rejecting "boom") sampleEditor "boom").2 rfl).2.1⟩⟩

theorem strictEqTrue_iff (v : JSValue) : v.strictEqTrue = true ↔ v = JSValue.boolean true := by
  cases v <;> simp [JSValue.strictEqTrue]

theorem comparesAlike_of_optionalBoolean (v : JSValue) (h : v.isOptionalBoolean = true) :
    v.comparesAlike = true := by
  cases v <;>
    simp_all [JSValue.isOptionalBoolean, JSValue.comparesAlike, JSValue.looseEqTrue,
      JSValue.strictEqTrue]

theorem comparesAlike_iff (v : JSValue) : v.comparesAlike = true ↔ v ≠ JSValue.number 1 := by
  cases v <;> simp [JSValue.comparesAlike, JSValue.looseEqTrue, JSValue.strictEqTrue]

theorem looseEqTrue_of_comparesAlike (v : JSValue) (h : v.comparesAlike = true) :
    v.looseEqTrue = v.strictEqTrue := by
  simpa [JSValue.comparesAlike] using h

theorem addedCommands_eq (capabilities : ServerCapabilities) (textEditorScopes : String)
    (registry : List Registration) :
    addedCommands capabilities textEditorScopes registry
      = (if capabilities.documentRangeFormattingProvider.strictEqTrue then
          [⟨textEditorScopes, "language:format-selection", Handler.formatSelection⟩] else [])
        ++ (if capabilities.documentFormattingProvider.strictEqTrue then
          [⟨textEditorScopes, "language:format-file", Handler.formatDocument⟩] else []) := by
  unfold addedCommands registerCommands
  by_cases h1 : capabilities.documentRangeFormattingProvider.strictEqTrue = true <;>
    by_cases h2 : capabilities.documentFormattingProvider.strictEqTrue = true <;>
    simp [h1, h2, List.append_assoc]

theorem registerCommands_eq (capabilities : ServerCapabilities) (textEditorScopes : String)
    (registry : List Registration) :
    registerCommands capabilities textEditorScopes registry
      = registry ++ addedCommands capabilities textEditorScopes registry := by
  rw [addedCommands_eq]
  unfold registerCommands
  by_cases h1 : capabilities.documentRangeFormattingProvider.strictEqTrue = true <;>
    by_cases h2 : capabilities.documentFormattingProvider.strictEqTrue = true <;>
    simp [h1, h2, List.append_assoc]

/-- C6: `registerCommands` adds 'language:format-selection' exactly when
`documentRangeFormattingProvider` is `true`, and 'language:format-file' exactly when
`documentFormattingProvider` is `true`; each at most once, each on the given
text-editor scopes and bound to its own method, and nothing else is added. -/
theorem registerCommands_registers_by_capability (capabilities : ServerCapabilities)
    (textEditorScopes : String) (registry : List Registration) :
    registerCommands capabilities textEditorScopes registry
      = registry ++ addedCommands capabilities textEditorScopes registry ∧
    ((∃ r ∈ addedCommands capabilities textEditorScopes registry,
        r.commandName = "language:format-selection")
      ↔ capabilities.documentRangeFormattingProvider = JSValue.boolean true) ∧
    ((∃ r ∈ addedCommands capabilities textEditorScopes registry,
        r.commandName = "language:format-file")
      ↔ capabilities.documentFormattingProvider = JSValue.boolean true) ∧
    (addedCommands capabilities textEditorScopes registry).countP
        (fun r => r.commandName == "language:format-selection") ≤ 1 ∧
    (addedCommands capabilities textEditorScopes registry).countP
        (fun r => r.commandName == "language:format-file") ≤ 1 ∧
    (∀ r ∈ addedCommands capabilities textEditorScopes registry,
      r = ⟨textEditorScopes, "language:format-selection", Handler.formatSelection⟩ ∨
      r = ⟨textEditorScopes, "language:format-file", Handler.formatDocument⟩) := by
  refine ⟨registerCommands_eq capabilities textEditorScopes registry, ?_⟩
  rw [addedCommands_eq, ← strictEqTrue_iff, ← strictEqTrue_iff]
  by_cases h1 : capabilities.documentRangeFormattingProvider.strictEqTrue = true <;>
    by_cases h2 : capabilities.documentFormattingProvider.strictEqTrue = true <;>
    simp [h1, h2, List.countP_cons]

/-- C7: in every invocation that succeeds with an active editor, the request
resolved with a list of edits, and the calls are the request, the opening of
one transaction on the buffer, the `setTextInBufferRange` calls of exactly these
edits, and the closing of the transaction: one transaction is opened and
closed, every returned edit is applied inside it, and no buffer edit is made
outside it. -/
theorem edits_in_one_transaction {ε : Type} (conv : Convert)
    (connection : LanguageClientConnection ε) (editor : TextEditor) :
    ((formatDocument conv connection (some editor)).succeeded = true →
      ∃ textEdits : List TextEdit,
        connection.documentFormatting (createDocumentFormattingParams conv editor)
          = .ok textEdits ∧
        AppliedInOneTransaction conv
          (formatDocument conv connection (some editor)).calls textEdits ∧
        (formatDocument conv connection (some editor)).calls.countP Event.isTransactBegin = 1 ∧
        (formatDocument conv connection (some editor)).calls.countP Event.isTransactEnd = 1 ∧
        (formatDocument conv connection (some editor)).calls.countP Event.isSetText
          = textEdits.length) ∧
    ((formatSelection conv connection (some editor)).succeeded = true →
      ∃ textEdits : List TextEdit,
        connection.documentRangeFormatting (createDocumentRangeFormattingParams conv editor)
          = .ok textEdits ∧
        AppliedInOneTransaction conv
          (formatSelection conv connection (some editor)).calls textEdits ∧
        (formatSelection conv connection (some editor)).calls.countP Event.isTransactBegin = 1 ∧
        (formatSelection conv connection (some editor)).calls.countP Event.isTransactEnd = 1 ∧
        (formatSelection conv connection (some editor)).calls.countP Event.isSetText
          = textEdits.length) := by
  constructor
  · cases h : connection.documentFormatting (createDocumentFormattingParams conv editor) with
    | error e =>
      rw [formatDocument_rejected conv connection editor e h]
      intro hs
      simp [Outcome.succeeded] at hs
    | ok textEdits =>
      intro _
      rw [formatDocument_calls conv connection editor textEdits h]
      refine ⟨textEdits, rfl,
        ⟨[Event.documentFormatting (createDocumentFormattingParams conv editor)], rfl, ?_⟩,
        ?_, ?_, ?_⟩
      · intro e he
        simp only [List.mem_singleton] at he
        subst he
        exact ⟨rfl, rfl, rfl⟩
      · simp [List.countP_cons, Event.isTransactBegin, Function.comp_def]
      · simp [List.countP_cons, Event.isTransactEnd, Function.comp_def]
      · simp [List.countP_cons, Event.isSetText, Function.comp_def]
  · cases h : connection.documentRangeFormatting
        (createDocumentRangeFormattingParams conv editor) with
    | error e =>
      rw [formatSelection_rejected conv connection editor e h]
      intro hs
      simp [Outcome.succeeded] at hs
    | ok textEdits =>
      intro _
      rw [formatSelection_calls conv connection editor textEdits h]
      refine ⟨textEdits, rfl,
        ⟨[Event.documentRangeFormatting (createDocumentRangeFormattingParams conv editor)],
          rfl, ?_⟩,
        ?_, ?_, ?_⟩
      · intro e he
        simp only [List.mem_singleton] at he
        subst he
        exact ⟨rfl, rfl, rfl⟩
      · simp [List.countP_cons, Event.isTransactBegin, Function.comp_def]
      · simp [List.countP_cons, Event.isTransactEnd, Function.comp_def]
      · simp [List.countP_cons, Event.isSetText, Function.comp_def]

/-- C7, witness: on a response of two edits each method succeeds, and its
calls are the request, the opening of a transaction, the two edits (the second
one first) and the closing of the transaction. -/
theorem edits_in_one_transaction_witness :
    AppliedInOneTransaction plainConvert
      (formatDocument plainConvert
        (answering [lineEdit 0 0 1 "Y", lineEdit 1 0 1 "X"]) (some sampleEditor)).calls
      [lineEdit 0 0 1 "Y", lineEdit 1 0 1 "X"] ∧
    AppliedInOneTransaction plainConvert
      (formatSelection plainConvert
        (answering [lineEdit 0 0 1 "Y", lineEdit 1 0 1 "X"]) (some sampleEditor)).calls
      [lineEdit 0 0 1 "Y", lineEdit 1 0 1 "X"] := by
  obtain ⟨docEdits, hdoc, hdocCalls, -⟩ :=
    (edits_in_one_transaction plainConvert
      (answering [lineEdit 0 0 1 "Y", lineEdit 1 0 1 "X"]) sampleEditor).1 rfl
  obtain ⟨selEdits, hsel, hselCalls, -⟩ :=
    (edits_in_one_transaction plainConvert
      (answering [lineEdit 0 0 1 "Y", lineEdit 1 0 1 "X"]) sampleEditor).2 rfl
  cases hdoc
  cases hsel
  exact ⟨hdocCalls, hselCalls⟩

/-- C8: with an active editor, whether the request resolves or rejects,
`formatDocument` sends exactly one `documentFormatting` request and no
`documentRangeFormatting` request, and `formatSelection` sends exactly one
`documentRangeFormatting` request and no `documentFormatting` request. -/
theorem sends_exactly_one_request {ε : Type} (conv : Convert)
    (connection : LanguageClientConnection ε) (editor : TextEditor) :
    ((formatDocument conv connection (some editor)).calls.countP Event.isDocumentFormatting = 1 ∧
      (formatDocument conv connection (some editor)).calls.countP
        Event.isDocumentRangeFormatting = 0 ∧
      (formatDocument conv connection (some editor)).calls.countP Event.isRequest = 1) ∧
    ((formatSelection conv connection (some editor)).calls.countP
        Event.isDocumentRangeFormatting = 1 ∧
      (formatSelection conv connection (some editor)).calls.countP
        Event.isDocumentFormatting = 0 ∧
      (formatSelection conv connection (some editor)).calls.countP Event.isRequest = 1) := by
  constructor
  · cases h : connection.documentFormatting (createDocumentFormattingParams conv editor) with
    | error e =>
      rw [formatDocument_rejected conv connection editor e h]
      exact ⟨rfl, rfl, rfl⟩
    | ok textEdits =>
      rw [formatDocument_calls conv connection editor textEdits h]
      simp [List.countP_cons, Event.isDocumentFormatting, Event.isDocumentRangeFormatting,
        Event.isRequest, Function.comp_def]
  · cases h : connection.documentRangeFormatting
        (createDocumentRangeFormattingParams conv editor) with
    | error e =>
      rw [formatSelection_rejected conv connection editor e h]
      exact ⟨rfl, rfl, rfl⟩
    | ok textEdits =>
      rw [formatSelection_calls conv connection editor textEdits h]
      simp [List.countP_cons, Event.isDocumentFormatting, Event.isDocumentRangeFormatting,
        Event.isRequest, Function.comp_def]

/-- C9: for every capabilities record on whose provider flags `== true` and
`=== true` give the same answer, which is so for every record of the declared
type (each flag a boolean or left out) and also for flags that are plain
objects or numbers other than 1, `canAdapt` returns true exactly when
constructing the adapter with the same capabilities registers at least one
command. -/
theorem canAdapt_iff_registers (conv : Convert)
    (capabilities : ServerCapabilities) (grammarScopes : List String)
    (registry : List Registration)
    (hRange : capabilities.documentRangeFormattingProvider.comparesAlike = true)
    (hDocument : capabilities.documentFormattingProvider.comparesAlike = true) :
    canAdapt capabilities = true
      ↔ registry.length < (construct conv capabilities grammarScopes registry).length := by
  unfold canAdapt construct
  rw [registerCommands_eq, addedCommands_eq, looseEqTrue_of_comparesAlike _ hRange,
    looseEqTrue_of_comparesAlike _ hDocument]
  by_cases h1 : capabilities.documentRangeFormattingProvider.strictEqTrue = true <;>
    by_cases h2 : capabilities.documentFormattingProvider.strictEqTrue = true <;>
    simp [h1, h2]

/-- C9, witness: with `documentFormattingProvider` true and the other flag left
out, `canAdapt` is true and a command is registered; with one flag false and
the other left out, `canAdapt` is false and no command is registered. -/
theorem canAdapt_iff_registers_witness :
    (canAdapt ⟨JSValue.undefined, JSValue.boolean true⟩ = true ∧
      ([] : List Registration).length
        < (construct plainConvert ⟨JSValue.undefined, JSValue.boolean true⟩
            ["source.js"] []).length) ∧
    (canAdapt ⟨JSValue.boolean false, JSValue.undefined⟩ = false ∧
      ¬ ([] : List Registration).length
        < (construct plainConvert ⟨JSValue.boolean false, JSValue.undefined⟩
            ["source.js"] []).length) :=
  ⟨⟨rfl, (canAdapt_iff_registers plainConvert ⟨JSValue.undefined, JSValue.boolean true⟩
      ["source.js"] [] rfl rfl).mp rfl⟩,
    ⟨rfl, fun hlt =>
      Bool.noConfusion
        ((canAdapt_iff_registers plainConvert ⟨JSValue.boolean false, JSValue.undefined⟩
          ["source.js"] [] rfl rfl).mpr hlt)⟩⟩

/-- Outside the declared type the two comparisons part: when
`documentFormattingProvider` is the number 1, `canAdapt` returns true
(`1 == true`) while the constructor registers no command (`1 === true` is
false). -/
theorem canAdapt_true_for_number_one :
    canAdapt ⟨JSValue.undefined, JSValue.number 1⟩ = true ∧
    construct plainConvert ⟨JSValue.undefined, JSValue.number 1⟩ ["source.js"] [] = [] := by
  decide

/-- C10: the options of a request are the tab length and the soft-tabs setting
of the editor; both requests carry these options and the text-document
identifier of the editor, the range request also the selected buffer range
converted by `atomRangeToLSRange`; and these are the requests that
`formatDocument` and `formatSelection` send. -/
theorem request_carries_editor_settings {ε : Type} (conv : Convert)
    (connection : LanguageClientConnection ε) (editor : TextEditor) :
    (getFormatOptions editor).tabSize = editor.tabLength ∧
    (getFormatOptions editor).insertSpaces = editor.softTabs ∧
    (createDocumentFormattingParams conv editor).options = getFormatOptions editor ∧
    (createDocumentFormattingParams conv editor).textDocument
      = conv.editorToTextDocumentIdentifier editor ∧
    (createDocumentRangeFormattingParams conv editor).options = getFormatOptions editor ∧
    (createDocumentRangeFormattingParams conv editor).textDocument
      = conv.editorToTextDocumentIdentifier editor ∧
    (createDocumentRangeFormattingParams conv editor).range
      = conv.atomRangeToLSRange editor.selectedBufferRange ∧
    (formatDocument conv connection (some editor)).calls.head?
      = some (Event.documentFormatting
          ⟨conv.editorToTextDocumentIdentifier editor, ⟨editor.tabLength, editor.softTabs⟩⟩) ∧
    (formatSelection conv connection (some editor)).calls.head?
      = some (Event.documentRangeFormatting
          ⟨conv.editorToTextDocumentIdentifier editor,
            conv.atomRangeToLSRange editor.selectedBufferRange,
            ⟨editor.tabLength, editor.softTabs⟩⟩) := by
  refine ⟨rfl, rfl, rfl, rfl, rfl, rfl, rfl, ?_, ?_⟩
  · cases h : connection.documentFormatting (createDocumentFormattingParams conv editor) with
    | error e => rw [formatDocument_rejected conv connection editor e h]; rfl
    | ok textEdits => rw [formatDocument_calls conv connection editor textEdits h]; rfl
  · cases h : connection.documentRangeFormatting
        (createDocumentRangeFormattingParams conv editor) with
    | error e => rw [formatSelection_rejected conv connection editor e h]; rfl
    | ok textEdits => rw [formatSelection_calls conv connection editor textEdits h]; rfl

end FormatCodeAdapter
